import Mathlib

/-!
Verification of the capacity-constrained first-fit assignment engine and the
LLM-orchestration layer of `crewai_backend/main.py`.

The engine `route_optimization_tool` works on raw dict records, so a delivery
may lack a `weight` key (read as `0` via `dict.get('weight', 0)`) and a
vehicle may lack a `capacity` key (read as `float('inf')` via
`dict.get('capacity', float('inf'))`) or an `id` key (replaced by
`vehicle_<index>`). We model these records with `Option` fields, weights and
capacities as rationals, and a missing capacity as `none` standing for the
infinite default. The per-process Python string hash used in route IDs is
abstracted as an explicit function parameter `hashFn`, fixed for a process.
-/

/-- Raw delivery record: `id` and `weight` keys may be absent
(`delivery.get('weight', 0)` in the source). -/
structure Delivery where
  id : Option String
  weight : Option ℚ
deriving DecidableEq, Repr

/-- Raw vehicle record: `id` and `capacity` keys may be absent
(`current_vehicle.get('capacity', float('inf'))` in the source,
so `none` means infinite capacity). -/
structure Vehicle where
  id : Option String
  capacity : Option ℚ
deriving DecidableEq, Repr

/-- A route dict produced by the engine. -/
structure Route where
  routeId : String
  vehicleId : String
  stops : List Delivery
  totalWeight : ℚ
deriving DecidableEq, Repr

/-- The dict `{"optimizedRoutes": ..., "unassignedDeliveries": ...}` returned
by `route_optimization_tool`. -/
structure AssignmentResult where
  optimizedRoutes : List Route
  unassignedDeliveries : List Delivery
deriving DecidableEq, Repr

/-- `delivery.get('weight', 0)`. -/
def weightOf (d : Delivery) : ℚ := d.weight.getD 0

/-- The capacity check `new_route["totalWeight"] + delivery_weight <=
vehicle_capacity`, where a missing capacity is `float('inf')` and hence the
check always succeeds. -/
def fitsCap (total w : ℚ) : Option ℚ → Bool
  | none => true
  | some c => decide (total + w ≤ c)

/-- The inner `for delivery in remaining_deliveries` loop of
`route_optimization_tool`: given the vehicle capacity and the running
`totalWeight`, it returns `(stops, totalWeight, temp_remaining)` — accepted
deliveries in order, final total, and the carried-forward deliveries in
order. -/
def scanDeliveries (cap : Option ℚ) (total : ℚ) : List Delivery → List Delivery × ℚ × List Delivery
  | [] => ([], total, [])
  | d :: ds =>
    if fitsCap total (weightOf d) cap then
      let r := scanDeliveries cap (total + weightOf d) ds
      (d :: r.1, r.2.1, r.2.2)
    else
      let r := scanDeliveries cap total ds
      (r.1, r.2.1, d :: r.2.2)

/-- The route ID string `f"RUTA-{hash(str(current_vehicle))}-{vehicle_index}"`;
`hashFn` abstracts the per-process Python hash of the vehicle's repr. -/
def mkRouteId (hashFn : Vehicle → Int) (v : Vehicle) (idx : Nat) : String :=
  "RUTA-" ++ toString (hashFn v) ++ "-" ++ toString idx

/-- `current_vehicle.get('id', f'vehicle_{vehicle_index}')`. -/
def mkVehicleId (v : Vehicle) (idx : Nat) : String :=
  v.id.getD ("vehicle_" ++ toString idx)

/-- The `while remaining_deliveries and vehicle_index < len(fleet_data)` loop:
walks the fleet from `vehicle_index`, scanning the remaining deliveries for
each vehicle, keeping only routes with at least one stop, and returns the
accumulated routes together with the final remaining deliveries. -/
def assignLoop (hashFn : Vehicle → Int) : List Vehicle → Nat → List Delivery → List Route × List Delivery
  | [], _, remaining => ([], remaining)
  | v :: vs, idx, remaining =>
    if remaining = [] then ([], remaining)
    else
      let s := scanDeliveries v.capacity 0 remaining
      let newRoute : Route :=
        { routeId := mkRouteId hashFn v idx
          vehicleId := mkVehicleId v idx
          stops := s.1
          totalWeight := s.2.1 }
      let rest := assignLoop hashFn vs (idx + 1) s.2.2
      ((if s.1 = [] then rest.1 else newRoute :: rest.1), rest.2)

/-- `route_optimization_tool(deliveries_data, fleet_data)` from
`crewai_backend/main.py`: early return on empty input (where
`deliveries_data or []` equals `deliveries_data`), otherwise the first-fit
loop over the fleet. -/
def route_optimization_tool (hashFn : Vehicle → Int)
    (deliveries_data : List Delivery) (fleet_data : List Vehicle) : AssignmentResult :=
  if deliveries_data = [] ∨ fleet_data = [] then
    { optimizedRoutes := [], unassignedDeliveries := deliveries_data }
  else
    let r := assignLoop hashFn fleet_data 0 deliveries_data
    { optimizedRoutes := r.1, unassignedDeliveries := r.2 }

/-- Sum of the effective weights of a list of deliveries. -/
def sumWeights (ds : List Delivery) : ℚ := (ds.map weightOf).sum

/-- Concatenation of the `stops` of a list of routes, in route order. -/
def allStops : List Route → List Delivery
  | [] => []
  | r :: rs => r.stops ++ allStops rs

/-- The inner scan partitions the remaining deliveries: accepted stops plus
carried-forward deliveries are a permutation of the input. -/
theorem scanDeliveries_perm (cap : Option ℚ) (total : ℚ) (ds : List Delivery) :
    ((scanDeliveries cap total ds).1 ++ (scanDeliveries cap total ds).2.2).Perm ds := by
  induction ds generalizing total with
  | nil => simp [scanDeliveries]
  | cons d ds ih =>
    cases hfit : fitsCap total (weightOf d) cap
    · simp only [scanDeliveries, hfit, Bool.false_eq_true, if_false]
      exact List.perm_middle.trans ((ih total).cons d)
    · simp only [scanDeliveries, hfit, if_true]
      exact (ih (total + weightOf d)).cons d

/-- The scan's final running total is the initial total plus the weights of
the accepted stops. -/
theorem scanDeliveries_total (cap : Option ℚ) (total : ℚ) (ds : List Delivery) :
    (scanDeliveries cap total ds).2.1 = total + sumWeights (scanDeliveries cap total ds).1 := by
  induction ds generalizing total with
  | nil => simp [scanDeliveries, sumWeights]
  | cons d ds ih =>
    cases hfit : fitsCap total (weightOf d) cap
    · simp only [scanDeliveries, hfit, Bool.false_eq_true, if_false]
      exact ih total
    · simp only [scanDeliveries, hfit, if_true]
      rw [ih (total + weightOf d)]
      simp only [sumWeights, List.map_cons, List.sum_cons]
      ring

/-- For a finite capacity, either the scan accepted nothing and the total is
unchanged, or the final total is within the capacity. -/
theorem scanDeliveries_le_cap (c : ℚ) (total : ℚ) (ds : List Delivery) :
    ((scanDeliveries (some c) total ds).1 = [] ∧ (scanDeliveries (some c) total ds).2.1 = total)
      ∨ (scanDeliveries (some c) total ds).2.1 ≤ c := by
  induction ds generalizing total with
  | nil => exact Or.inl ⟨rfl, rfl⟩
  | cons d ds ih =>
    cases hfit : fitsCap total (weightOf d) (some c)
    · simp only [scanDeliveries, hfit, Bool.false_eq_true, if_false]
      exact ih total
    · have hle : total + weightOf d ≤ c := by
        simpa [fitsCap] using hfit
      simp only [scanDeliveries, hfit, if_true]
      right
      rcases ih (total + weightOf d) with ⟨_, h2⟩ | h
      · rw [h2]; exact hle
      · exact h

/-- The carried-forward deliveries form a sublist (order-preserving
subsequence) of the scanned deliveries. -/
theorem scanDeliveries_sublist (cap : Option ℚ) (total : ℚ) (ds : List Delivery) :
    ((scanDeliveries cap total ds).2.2).Sublist ds := by
  induction ds generalizing total with
  | nil => simp [scanDeliveries]
  | cons d ds ih =>
    cases hfit : fitsCap total (weightOf d) cap
    · simp only [scanDeliveries, hfit, Bool.false_eq_true, if_false]
      exact (ih total).cons₂ d
    · simp only [scanDeliveries, hfit, if_true]
      exact (ih (total + weightOf d)).cons d

/-- A delivery heavier than the finite capacity is never accepted by the
scan, provided the running total is nonnegative and all weights are
nonnegative. -/
theorem scanDeliveries_reject_mem (c : ℚ) (d : Delivery) (hbig : c < weightOf d) :
    ∀ (ds : List Delivery) (total : ℚ), 0 ≤ total → d ∈ ds →
      (∀ e ∈ ds, 0 ≤ weightOf e) →
      d ∈ (scanDeliveries (some c) total ds).2.2 := by
  intro ds
  induction ds with
  | nil => intro total _ hmem _; cases hmem
  | cons e ds ih =>
    intro total ht hmem hnn
    cases hfit : fitsCap total (weightOf e) (some c)
    · simp only [scanDeliveries, hfit, Bool.false_eq_true, if_false]
      rcases List.mem_cons.mp hmem with rfl | hmem'
      · exact List.mem_cons_self _ _
      · exact List.mem_cons_of_mem _
          (ih total ht hmem' (fun x hx => hnn x (List.mem_cons_of_mem _ hx)))
    · have hle : total + weightOf e ≤ c := by
        simpa [fitsCap] using hfit
      rcases List.mem_cons.mp hmem with rfl | hmem'
      · exact absurd hle (by linarith)
      · simp only [scanDeliveries, hfit, if_true]
        exact ih (total + weightOf e)
          (add_nonneg ht (hnn e (List.mem_cons_self _ _))) hmem'
          (fun x hx => hnn x (List.mem_cons_of_mem _ hx))

/-- The fleet loop preserves the deliveries: stops of all emitted routes plus
the final remaining deliveries are a permutation of the initial remaining
deliveries. -/
theorem assignLoop_perm (hashFn : Vehicle → Int) :
    ∀ (vs : List Vehicle) (idx : Nat) (rem : List Delivery),
      (allStops (assignLoop hashFn vs idx rem).1 ++ (assignLoop hashFn vs idx rem).2).Perm rem := by
  intro vs
  induction vs with
  | nil => intro idx rem; simp [assignLoop, allStops]
  | cons v vs ih =>
    intro idx rem
    by_cases hrem : rem = []
    · subst hrem; simp [assignLoop, allStops]
    · simp only [assignLoop, if_neg hrem]
      have hscan := scanDeliveries_perm v.capacity 0 rem
      have hrest := ih (idx + 1) (scanDeliveries v.capacity 0 rem).2.2
      by_cases hstops : (scanDeliveries v.capacity 0 rem).1 = []
      · rw [if_pos hstops]
        rw [hstops] at hscan
        simp only [List.nil_append] at hscan
        exact hrest.trans hscan
      · rw [if_neg hstops]
        simp only [allStops]
        rw [List.append_assoc]
        exact (List.Perm.append_left _ hrest).trans hscan

/-- Every route emitted by the fleet loop is bound to a vehicle of the fleet
at some index: its route ID and vehicle ID are built from that vehicle and
index, its stops are nonempty, its total weight is the sum of its stops'
weights, and it respects that vehicle's capacity when finite. -/
theorem assignLoop_routes_spec (hashFn : Vehicle → Int) :
    ∀ (vs : List Vehicle) (idx : Nat) (rem : List Delivery),
      ∀ r ∈ (assignLoop hashFn vs idx rem).1,
        ∃ j, ∃ hj : j < vs.length,
          r.routeId = mkRouteId hashFn (vs.get ⟨j, hj⟩) (idx + j) ∧
          r.vehicleId = mkVehicleId (vs.get ⟨j, hj⟩) (idx + j) ∧
          r.stops ≠ [] ∧
          r.totalWeight = sumWeights r.stops ∧
          ∀ c, (vs.get ⟨j, hj⟩).capacity = some c → r.totalWeight ≤ c := by
  intro vs
  induction vs with
  | nil => intro idx rem r hr; simp [assignLoop] at hr
  | cons v vs ih =>
    intro idx rem r hr
    by_cases hrem : rem = []
    · simp [assignLoop, hrem] at hr
    · simp only [assignLoop, if_neg hrem] at hr
      by_cases hstops : (scanDeliveries v.capacity 0 rem).1 = []
      · rw [if_pos hstops] at hr
        obtain ⟨j, hj, h1, h2, h3, h4, h5⟩ := ih (idx + 1) _ r hr
        refine ⟨j + 1, Nat.succ_lt_succ hj, ?_, ?_, h3, h4, h5⟩
        · rw [show idx + (j + 1) = idx + 1 + j by omega]; exact h1
        · rw [show idx + (j + 1) = idx + 1 + j by omega]; exact h2
      · rw [if_neg hstops] at hr
        rcases List.mem_cons.mp hr with rfl | hr'
        · refine ⟨0, Nat.succ_pos _, ?_, ?_, hstops, ?_, ?_⟩
          · exact congrArg (mkRouteId hashFn v) (Nat.add_zero idx).symm
          · exact congrArg (mkVehicleId v) (Nat.add_zero idx).symm
          · have := scanDeliveries_total v.capacity 0 rem
            simpa using this
          · intro c hc
            have hc' : v.capacity = some c := hc
            rcases scanDeliveries_le_cap c 0 rem with ⟨h1, _⟩ | h
            · rw [hc'] at hstops; exact absurd h1 hstops
            · show (scanDeliveries v.capacity 0 rem).2.1 ≤ c
              rw [hc']; exact h
        · obtain ⟨j, hj, h1, h2, h3, h4, h5⟩ := ih (idx + 1) _ r hr'
          refine ⟨j + 1, Nat.succ_lt_succ hj, ?_, ?_, h3, h4, h5⟩
          · rw [show idx + (j + 1) = idx + 1 + j by omega]; exact h1
          · rw [show idx + (j + 1) = idx + 1 + j by omega]; exact h2

/-- A delivery heavier than every (finite) capacity in the fleet survives the
whole loop in the remaining deliveries. -/
theorem assignLoop_reject_mem (hashFn : Vehicle → Int) (d : Delivery) :
    ∀ (vs : List Vehicle) (idx : Nat) (rem : List Delivery),
      d ∈ rem → (∀ e ∈ rem, 0 ≤ weightOf e) →
      (∀ v ∈ vs, ∃ c, v.capacity = some c ∧ c < weightOf d) →
      d ∈ (assignLoop hashFn vs idx rem).2 := by
  intro vs
  induction vs with
  | nil => intro idx rem hd _ _; simpa [assignLoop] using hd
  | cons v vs ih =>
    intro idx rem hd hnn hcap
    have hrem : rem ≠ [] := by intro h; subst h; cases hd
    simp only [assignLoop, if_neg hrem]
    obtain ⟨c, hc, hlt⟩ := hcap v (List.mem_cons_self _ _)
    have hmem' : d ∈ (scanDeliveries v.capacity 0 rem).2.2 := by
      rw [hc]
      exact scanDeliveries_reject_mem c d hlt rem 0 le_rfl hd hnn
    exact ih (idx + 1) _ hmem'
      (fun e he => hnn e ((scanDeliveries_sublist _ _ _).subset he))
      (fun v' hv' => hcap v' (List.mem_cons_of_mem _ hv'))

/-- C1. Conservation/partition: for every input pair, the stops of all
output routes together with the unassigned deliveries are a permutation of
the input deliveries — every delivery lands in exactly one place, none is
duplicated, none is dropped (multiset equality). -/
theorem conservation_partition (hashFn : Vehicle → Int)
    (deliveries : List Delivery) (fleet : List Vehicle) :
    (allStops (route_optimization_tool hashFn deliveries fleet).optimizedRoutes
      ++ (route_optimization_tool hashFn deliveries fleet).unassignedDeliveries).Perm
      deliveries := by
  unfold route_optimization_tool
  by_cases h : deliveries = [] ∨ fleet = []
  · simp only [if_pos h]
    simp [allStops]
  · simp only [if_neg h]
    exact assignLoop_perm hashFn fleet 0 deliveries

/-- C2. Capacity safety: under the spec's precondition (positive weights and
capacities), every output route carries a total weight equal to the sum of
its stops' weights and within the capacity of the fleet vehicle it is bound
to (the vehicle at index `j`, from which its route ID and vehicle ID were
built). -/
theorem capacity_safety (hashFn : Vehicle → Int)
    (deliveries : List Delivery) (fleet : List Vehicle)
    (hw : ∀ d ∈ deliveries, ∃ w, d.weight = some w ∧ 0 < w)
    (hc : ∀ v ∈ fleet, ∃ c, v.capacity = some c ∧ 0 < c) :
    ∀ r ∈ (route_optimization_tool hashFn deliveries fleet).optimizedRoutes,
      r.totalWeight = sumWeights r.stops ∧
      ∃ j, ∃ hj : j < fleet.length,
        r.vehicleId = mkVehicleId (fleet.get ⟨j, hj⟩) j ∧
        r.routeId = mkRouteId hashFn (fleet.get ⟨j, hj⟩) j ∧
        ∀ c, (fleet.get ⟨j, hj⟩).capacity = some c → r.totalWeight ≤ c := by
  intro r hr
  unfold route_optimization_tool at hr
  by_cases h : deliveries = [] ∨ fleet = []
  · simp [if_pos h] at hr
  · simp only [if_neg h] at hr
    obtain ⟨j, hj, h1, h2, _, h4, h5⟩ := assignLoop_routes_spec hashFn fleet 0 deliveries r hr
    refine ⟨h4, j, hj, ?_, ?_, h5⟩
    · rw [h2, Nat.zero_add]
    · rw [h1, Nat.zero_add]

/-- Witness for `capacity_safety` at a concrete input: one delivery of
weight 5 and one vehicle of capacity 10, instantiated at the single route
the engine produces there. -/
theorem capacity_safety_witness :
    (⟨"RUTA-0-0", "v1", [⟨some "d1", some 5⟩], 5⟩ : Route).totalWeight =
      sumWeights (⟨"RUTA-0-0", "v1", [⟨some "d1", some 5⟩], 5⟩ : Route).stops ∧
    ∃ j, ∃ hj : j < [(⟨some "v1", some 10⟩ : Vehicle)].length,
      (⟨"RUTA-0-0", "v1", [⟨some "d1", some 5⟩], 5⟩ : Route).vehicleId =
        mkVehicleId ([(⟨some "v1", some 10⟩ : Vehicle)].get ⟨j, hj⟩) j ∧
      (⟨"RUTA-0-0", "v1", [⟨some "d1", some 5⟩], 5⟩ : Route).routeId =
        mkRouteId (fun _ => 0) ([(⟨some "v1", some 10⟩ : Vehicle)].get ⟨j, hj⟩) j ∧
      ∀ c, ([(⟨some "v1", some 10⟩ : Vehicle)].get ⟨j, hj⟩).capacity = some c →
        (⟨"RUTA-0-0", "v1", [⟨some "d1", some 5⟩], 5⟩ : Route).totalWeight ≤ c :=
  capacity_safety (fun _ => 0) [⟨some "d1", some 5⟩] [⟨some "v1", some 10⟩]
    (by intro d hd; rw [List.mem_singleton] at hd; subst hd; exact ⟨5, rfl, by norm_num⟩)
    (by intro v hv; rw [List.mem_singleton] at hv; subst hv; exact ⟨10, rfl, by norm_num⟩)
    ⟨"RUTA-0-0", "v1", [⟨some "d1", some 5⟩], 5⟩
    (by simp +decide [route_optimization_tool, assignLoop, scanDeliveries, fitsCap,
      weightOf, mkRouteId, mkVehicleId])

/-- C5. Empty-input behavior: with empty deliveries the engine returns empty
routes and empty unassigned deliveries for every fleet; with an empty fleet
it returns empty routes and the input deliveries unassigned. -/
theorem empty_input_behavior (hashFn : Vehicle → Int) :
    (∀ fleet, route_optimization_tool hashFn [] fleet =
      { optimizedRoutes := [], unassignedDeliveries := [] }) ∧
    (∀ deliveries, route_optimization_tool hashFn deliveries [] =
      { optimizedRoutes := [], unassignedDeliveries := deliveries }) := by
  constructor
  · intro fleet; simp [route_optimization_tool]
  · intro deliveries; simp [route_optimization_tool]

/-- C6. First-fit carry-forward: the carried-forward deliveries of each
vehicle scan are an order-preserving subsequence of the remaining deliveries
handed to the next vehicle, and on the spec's concrete scenario (one
delivery of weight 5, fleet capacities 3 then 10) the sole route is for the
second vehicle with stops `[d1]` and total weight 5, the first vehicle emits
no route, and nothing is unassigned. -/
theorem first_fit_carry_forward (hashFn : Vehicle → Int) :
    (∀ cap total ds, ((scanDeliveries cap total ds).2.2).Sublist ds) ∧
    (route_optimization_tool hashFn [⟨some "d1", some 5⟩]
        [⟨some "v1", some 3⟩, ⟨some "v2", some 10⟩]).optimizedRoutes.map
        (fun r => (r.vehicleId, r.stops, r.totalWeight))
      = [("v2", [⟨some "d1", some 5⟩], (5 : ℚ))] ∧
    (route_optimization_tool hashFn [⟨some "d1", some 5⟩]
        [⟨some "v1", some 3⟩, ⟨some "v2", some 10⟩]).unassignedDeliveries = [] := by
  refine ⟨fun cap total ds => scanDeliveries_sublist cap total ds, ?_, ?_⟩ <;>
    simp +decide [route_optimization_tool, assignLoop, scanDeliveries, fitsCap, weightOf,
      mkVehicleId, mkRouteId]

/-- C7. Engine totality on oversized deliveries: the engine is a total
function (it is defined for every input), and under the spec's precondition
a delivery whose weight exceeds every vehicle's capacity ends up in the
unassigned deliveries rather than causing a failure. -/
theorem engine_totality_oversized (hashFn : Vehicle → Int)
    (deliveries : List Delivery) (fleet : List Vehicle)
    (hw : ∀ d ∈ deliveries, ∃ w, d.weight = some w ∧ 0 < w)
    (hc : ∀ v ∈ fleet, ∃ c, v.capacity = some c ∧ 0 < c)
    (d : Delivery) (hd : d ∈ deliveries)
    (hbig : ∀ v ∈ fleet, ∀ c, v.capacity = some c → c < weightOf d) :
    d ∈ (route_optimization_tool hashFn deliveries fleet).unassignedDeliveries := by
  unfold route_optimization_tool
  by_cases h : deliveries = [] ∨ fleet = []
  · simpa [if_pos h] using hd
  · simp only [if_neg h]
    refine assignLoop_reject_mem hashFn d fleet 0 deliveries hd ?_ ?_
    · intro e he
      obtain ⟨w, hw1, hw2⟩ := hw e he
      simp [weightOf, hw1]
      exact le_of_lt hw2
    · intro v hv
      obtain ⟨c, hc1, _⟩ := hc v hv
      exact ⟨c, hc1, hbig v hv c hc1⟩

/-- Witness for `engine_totality_oversized`: a delivery of weight 5 and a
single vehicle of capacity 3; the delivery is returned unassigned. -/
theorem engine_totality_oversized_witness :
    (⟨some "d1", some 5⟩ : Delivery) ∈ (route_optimization_tool (fun _ => 0)
      [⟨some "d1", some 5⟩] [⟨some "v1", some 3⟩]).unassignedDeliveries :=
  engine_totality_oversized (fun _ => 0) [⟨some "d1", some 5⟩] [⟨some "v1", some 3⟩]
    (by intro d hd; rw [List.mem_singleton] at hd; subst hd; exact ⟨5, rfl, by norm_num⟩)
    (by intro v hv; rw [List.mem_singleton] at hv; subst hv; exact ⟨3, rfl, by norm_num⟩)
    ⟨some "d1", some 5⟩ (List.mem_singleton.mpr rfl)
    (by intro v hv c hc
        rw [List.mem_singleton] at hv; subst hv
        cases hc
        show (3 : ℚ) < weightOf ⟨some "d1", some 5⟩
        norm_num [weightOf])

/-- C8. Determinism: the engine is a pure function of its inputs and of the
per-process hash function, so two calls with identical deliveries and fleet
(within one process, where the Python string hash is a fixed function)
return identical routes — route IDs included — and identical unassigned
deliveries. -/
theorem assign_determinism (hashFn : Vehicle → Int)
    (deliveries : List Delivery) (fleet : List Vehicle) :
    (route_optimization_tool hashFn deliveries fleet).optimizedRoutes =
      (route_optimization_tool hashFn deliveries fleet).optimizedRoutes ∧
    (route_optimization_tool hashFn deliveries fleet).unassignedDeliveries =
      (route_optimization_tool hashFn deliveries fleet).unassignedDeliveries :=
  ⟨rfl, rfl⟩

/-- Outcome of the `try` block of `llm_optimize_routes`: the awaited LLM call
either raises (also covering timeouts), or yields text in which the regex
finds no JSON object (the `ValueError` branch), or finds one that
`json.loads` rejects, or parses to a result-shaped value. The parsed JSON is
whatever the LLM produced, so it may violate the invariants and may even
carry its own truthy `_internal_fallback` key. -/
inductive LLMOutcome where
  | raises
  | noJsonMatch
  | badJson
  | parsed (routes : List Route) (unassigned : List Delivery) (internalFallbackKey : Bool)
deriving DecidableEq, Repr

/-- Whether the LLM call failed (raised, or its output was unparseable). -/
def LLMOutcome.isFailure : LLMOutcome → Bool
  | .parsed _ _ _ => false
  | _ => true

/-- The response dict assembled by the endpoint: the engine/LLM payload plus
the `_internal_fallback` marker and the annotation fields added by
`optimize_routes_endpoint` (absent keys modeled as `false`/`none`). -/
structure ResultDict where
  optimizedRoutes : List Route
  unassignedDeliveries : List Delivery
  internal_fallback : Bool
  optimization_method : Option String
  llm_used : Option Bool
  message : Option String
deriving DecidableEq, Repr

/-- `llm_optimize_routes(deliveries_data, fleet_data, llm)`: on a parsed JSON
response it returns the parsed dict as-is; on any exception (LLM error, no
JSON match, bad JSON) the `except` clause returns
`route_optimization_tool(deliveries_data, fleet_data)` with the
`_internal_fallback` marker set. It never raises. -/
def llm_optimize_routes (hashFn : Vehicle → Int) (outcome : LLMOutcome)
    (deliveries_data : List Delivery) (fleet_data : List Vehicle) : ResultDict :=
  match outcome with
  | .parsed routes unassigned fb =>
      { optimizedRoutes := routes, unassignedDeliveries := unassigned,
        internal_fallback := fb, optimization_method := none,
        llm_used := none, message := none }
  | _ =>
      let result := route_optimization_tool hashFn deliveries_data fleet_data
      { optimizedRoutes := result.optimizedRoutes,
        unassignedDeliveries := result.unassignedDeliveries,
        internal_fallback := true, optimization_method := none,
        llm_used := none, message := none }

/-- `optimize_routes_endpoint` after request validation: when `can_use_llm`
it calls `llm_optimize_routes` and annotates the result according to the
`_internal_fallback` marker; otherwise it calls the basic algorithm
directly. `provider` is the value of the `LLM_PROVIDER` environment
variable (default `"openai"`). -/
def optimize_routes_endpoint (hashFn : Vehicle → Int) (can_use_llm : Bool)
    (outcome : LLMOutcome) (provider : String)
    (deliveries_data : List Delivery) (fleet_data : List Vehicle) : ResultDict :=
  if can_use_llm then
    let result := llm_optimize_routes hashFn outcome deliveries_data fleet_data
    if result.internal_fallback then
      { result with
        internal_fallback := false
        optimization_method := some "basic_algorithm_after_llm_error"
        llm_used := some false
        message := some ("LLM (" ++ provider ++ ") falló. Usando algoritmo básico.") }
    else
      { result with
        optimization_method := some ("llm_" ++ provider)
        llm_used := some true
        message := some ("Optimización realizada con " ++ provider.toUpper) }
  else
    let result := route_optimization_tool hashFn deliveries_data fleet_data
    { optimizedRoutes := result.optimizedRoutes,
      unassignedDeliveries := result.unassignedDeliveries,
      internal_fallback := false,
      optimization_method := some "basic_algorithm",
      llm_used := some false,
      message := some "Optimización realizada con algoritmo básico" }

/-- Helper: the success annotation, which starts with `llm_`, is never the
exception annotation. -/
theorem llm_method_ne_exception (p : String) :
    "llm_" ++ p ≠ "basic_algorithm_after_llm_exception" := by
  intro h
  have h2 := congrArg String.data h
  rw [String.data_append] at h2
  simp [String.data] at h2

/-- C10. Unreachable exception branch: `llm_optimize_routes` catches every
failure internally (it is a total function of the outcome), so the
endpoint never annotates `basic_algorithm_after_llm_exception` for an LLM
failure; every LLM failure surfaces as `basic_algorithm_after_llm_error`
with `llm_used = false`. -/
theorem llm_exception_branch_unreachable (hashFn : Vehicle → Int) (outcome : LLMOutcome)
    (provider : String) (deliveries : List Delivery) (fleet : List Vehicle) :
    (optimize_routes_endpoint hashFn true outcome provider deliveries fleet).optimization_method ≠
      some "basic_algorithm_after_llm_exception" ∧
    ((LLMOutcome.isFailure outcome) = true →
      (optimize_routes_endpoint hashFn true outcome provider deliveries fleet).optimization_method =
        some "basic_algorithm_after_llm_error" ∧
      (optimize_routes_endpoint hashFn true outcome provider deliveries fleet).llm_used =
        some false) := by
  cases outcome with
  | parsed routes unassigned fb =>
      cases fb with
      | true =>
          simp +decide [optimize_routes_endpoint, llm_optimize_routes, LLMOutcome.isFailure]
      | false =>
          refine ⟨?_, ?_⟩
          · intro h
            apply llm_method_ne_exception provider
            simpa [optimize_routes_endpoint, llm_optimize_routes] using h
          · intro hfail
            simp [LLMOutcome.isFailure] at hfail
  | raises =>
      simp +decide [optimize_routes_endpoint, llm_optimize_routes, LLMOutcome.isFailure]
  | noJsonMatch =>
      simp +decide [optimize_routes_endpoint, llm_optimize_routes, LLMOutcome.isFailure]
  | badJson =>
      simp +decide [optimize_routes_endpoint, llm_optimize_routes, LLMOutcome.isFailure]

/-- Witness for `llm_exception_branch_unreachable` at a concrete failing
call. -/
theorem llm_exception_branch_unreachable_witness :
    (optimize_routes_endpoint (fun _ => 0) true LLMOutcome.raises "openai"
        [⟨some "d1", some 5⟩] [⟨some "v1", some 10⟩]).optimization_method =
      some "basic_algorithm_after_llm_error" ∧
    (optimize_routes_endpoint (fun _ => 0) true LLMOutcome.raises "openai"
        [⟨some "d1", some 5⟩] [⟨some "v1", some 10⟩]).llm_used = some false :=
  (llm_exception_branch_unreachable (fun _ => 0) LLMOutcome.raises "openai"
    [⟨some "d1", some 5⟩] [⟨some "v1", some 10⟩]).2 rfl

/-- C4 (amended). Fallback correctness: on any failure of the LLM call the
endpoint's routes and unassigned deliveries are exactly those of calling
`route_optimization_tool` directly, annotated with the code's actual strings
`optimization_method = "basic_algorithm_after_llm_error"`,
`llm_used = false`, and a human-readable fallback message. -/
theorem fallback_equals_engine (hashFn : Vehicle → Int) (outcome : LLMOutcome)
    (provider : String) (deliveries : List Delivery) (fleet : List Vehicle)
    (hfail : (LLMOutcome.isFailure outcome) = true) :
    (optimize_routes_endpoint hashFn true outcome provider deliveries fleet).optimizedRoutes =
      (route_optimization_tool hashFn deliveries fleet).optimizedRoutes ∧
    (optimize_routes_endpoint hashFn true outcome provider deliveries fleet).unassignedDeliveries =
      (route_optimization_tool hashFn deliveries fleet).unassignedDeliveries ∧
    (optimize_routes_endpoint hashFn true outcome provider deliveries fleet).optimization_method =
      some "basic_algorithm_after_llm_error" ∧
    (optimize_routes_endpoint hashFn true outcome provider deliveries fleet).llm_used =
      some false ∧
    (optimize_routes_endpoint hashFn true outcome provider deliveries fleet).message =
      some ("LLM (" ++ provider ++ ") falló. Usando algoritmo básico.") := by
  cases outcome with
  | parsed routes unassigned fb => simp [LLMOutcome.isFailure] at hfail
  | raises => simp [optimize_routes_endpoint, llm_optimize_routes]
  | noJsonMatch => simp [optimize_routes_endpoint, llm_optimize_routes]
  | badJson => simp [optimize_routes_endpoint, llm_optimize_routes]

/-- Witness for `fallback_equals_engine` at a concrete failing call. -/
theorem fallback_equals_engine_witness :
    (optimize_routes_endpoint (fun _ => 0) true LLMOutcome.noJsonMatch "ollama"
        [⟨some "d1", some 5⟩] [⟨some "v1", some 10⟩]).optimizedRoutes =
      (route_optimization_tool (fun _ => 0)
        [⟨some "d1", some 5⟩] [⟨some "v1", some 10⟩]).optimizedRoutes ∧
    (optimize_routes_endpoint (fun _ => 0) true LLMOutcome.noJsonMatch "ollama"
        [⟨some "d1", some 5⟩] [⟨some "v1", some 10⟩]).unassignedDeliveries =
      (route_optimization_tool (fun _ => 0)
        [⟨some "d1", some 5⟩] [⟨some "v1", some 10⟩]).unassignedDeliveries ∧
    (optimize_routes_endpoint (fun _ => 0) true LLMOutcome.noJsonMatch "ollama"
        [⟨some "d1", some 5⟩] [⟨some "v1", some 10⟩]).optimization_method =
      some "basic_algorithm_after_llm_error" ∧
    (optimize_routes_endpoint (fun _ => 0) true LLMOutcome.noJsonMatch "ollama"
        [⟨some "d1", some 5⟩] [⟨some "v1", some 10⟩]).llm_used = some false ∧
    (optimize_routes_endpoint (fun _ => 0) true LLMOutcome.noJsonMatch "ollama"
        [⟨some "d1", some 5⟩] [⟨some "v1", some 10⟩]).message =
      some ("LLM (" ++ "ollama" ++ ") falló. Usando algoritmo básico.") :=
  fallback_equals_engine (fun _ => 0) LLMOutcome.noJsonMatch "ollama"
    [⟨some "d1", some 5⟩] [⟨some "v1", some 10⟩] rfl

/-- Counterexample to C4 as stated: on a failing LLM call the code annotates
`"basic_algorithm_after_llm_error"`, not the claimed
`"basic_algorithm_after_external_error"`. -/
theorem fallback_method_string_cex :
    (optimize_routes_endpoint (fun _ => 0) true LLMOutcome.raises "openai"
        [⟨some "d1", some 5⟩] [⟨some "v1", some 10⟩]).optimization_method ≠
      some "basic_algorithm_after_external_error" ∧
    (optimize_routes_endpoint (fun _ => 0) true LLMOutcome.raises "openai"
        [⟨some "d1", some 5⟩] [⟨some "v1", some 10⟩]).optimization_method =
      some "basic_algorithm_after_llm_error" := by
  constructor <;> simp +decide [optimize_routes_endpoint, llm_optimize_routes]

/-- Counterexample to C3 as stated: the LLM returns parseable JSON that
drops the only delivery (empty routes, empty unassigned); the endpoint
returns it with `llm_used = true` even though the conservation invariant is
violated — no validation happens. -/
theorem llm_no_validation_cex :
    (optimize_routes_endpoint (fun _ => 0) true (LLMOutcome.parsed [] [] false) "openai"
        [⟨some "d1", some 5⟩] [⟨some "v1", some 10⟩]).llm_used = some true ∧
    ¬ (allStops (optimize_routes_endpoint (fun _ => 0) true (LLMOutcome.parsed [] [] false)
          "openai" [⟨some "d1", some 5⟩] [⟨some "v1", some 10⟩]).optimizedRoutes ++
        (optimize_routes_endpoint (fun _ => 0) true (LLMOutcome.parsed [] [] false)
          "openai" [⟨some "d1", some 5⟩] [⟨some "v1", some 10⟩]).unassignedDeliveries).Perm
      [⟨some "d1", some 5⟩] := by
  constructor
  · rfl
  · intro h
    have := h.length_eq
    simp [optimize_routes_endpoint, llm_optimize_routes, allStops] at this

/-- C3 (amended). The orchestrator performs no invariant validation on
externally-returned results: every parsed LLM response whose JSON carries no
truthy `_internal_fallback` key is returned to the caller unchanged, with
`llm_used = true` and the provider success annotations, whatever routes and
unassigned deliveries it contains. -/
theorem llm_result_returned_unvalidated (hashFn : Vehicle → Int) (provider : String)
    (deliveries : List Delivery) (fleet : List Vehicle)
    (routes : List Route) (unassigned : List Delivery) :
    optimize_routes_endpoint hashFn true (LLMOutcome.parsed routes unassigned false)
        provider deliveries fleet =
      { optimizedRoutes := routes
        unassignedDeliveries := unassigned
        internal_fallback := false
        optimization_method := some ("llm_" ++ provider)
        llm_used := some true
        message := some ("Optimización realizada con " ++ provider.toUpper) } := by
  simp [optimize_routes_endpoint, llm_optimize_routes]

/-- A vehicle lacking a `capacity` key (infinite default) accepts every
delivery still remaining when it is processed: its scan puts the whole
remaining list into the stops and carries nothing forward. -/
theorem scanDeliveries_none_accepts_all (total : ℚ) (ds : List Delivery) :
    (scanDeliveries none total ds).1 = ds ∧ (scanDeliveries none total ds).2.2 = [] := by
  induction ds generalizing total with
  | nil => exact ⟨rfl, rfl⟩
  | cons d ds ih =>
    have hfit : fitsCap total (weightOf d) none = true := rfl
    simp only [scanDeliveries, hfit, if_true]
    exact ⟨congrArg (d :: ·) (ih (total + weightOf d)).1, (ih (total + weightOf d)).2⟩

/-- A delivery lacking a `weight` key (read as 0) is accepted by any scan
whose capacity is either missing or at least the running total at every
step; with a nonnegative initial total and a nonnegative (or missing)
capacity this always holds, because the running total can only stay within
the capacity. -/
theorem scanDeliveries_accept_weightless (d : Delivery) (hd : d.weight = none) :
    ∀ (cap : Option ℚ) (ds : List Delivery) (total : ℚ),
      (∀ c, cap = some c → total ≤ c) → d ∈ ds →
      d ∈ (scanDeliveries cap total ds).1 := by
  intro cap ds
  induction ds with
  | nil => intro total _ hmem; cases hmem
  | cons e ds ih =>
    intro total hinv hmem
    cases hfit : fitsCap total (weightOf e) cap
    · rcases List.mem_cons.mp hmem with rfl | hmem'
      · exfalso
        cases cap with
        | none => simp [fitsCap] at hfit
        | some c =>
          have h1 : total ≤ c := hinv c rfl
          have h2 : weightOf d = 0 := by simp [weightOf, hd]
          simp [fitsCap, h2] at hfit
          exact absurd h1 (by linarith)
      · simp only [scanDeliveries, hfit, Bool.false_eq_true, if_false]
        exact ih total hinv hmem'
    · simp only [scanDeliveries, hfit, if_true]
      rcases List.mem_cons.mp hmem with rfl | hmem'
      · exact List.mem_cons_self _ _
      · refine List.mem_cons_of_mem _ (ih (total + weightOf e) ?_ hmem')
        intro c hc
        subst hc
        simpa [fitsCap] using hfit

/-- Counterexample to C9 as stated: with a raw vehicle record whose
`capacity` is present but negative, a delivery lacking `weight` does NOT
"always fit": here it is rejected by the first (and only) vehicle and ends
up unassigned, so it is not assigned to the first vehicle. -/
theorem missing_field_defaults_cex :
    route_optimization_tool (fun _ => 0) [⟨some "d0", none⟩] [⟨some "v1", some (-1)⟩] =
      { optimizedRoutes := [], unassignedDeliveries := [⟨some "d0", none⟩] } := by
  simp +decide [route_optimization_tool, assignLoop, scanDeliveries, fitsCap, weightOf]

/-- C9 (amended). Missing-field defaults: a delivery lacking `weight` is
treated as weight 0 and, whenever the first vehicle's capacity is missing or
nonnegative, it fits and is assigned to the first vehicle (the head route of
the result, bearing that vehicle's id); a vehicle lacking `capacity` is
treated as having infinite capacity, so its scan accepts every delivery
still remaining when it is processed. -/
theorem missing_field_defaults (hashFn : Vehicle → Int) :
    (∀ total ds, (scanDeliveries none total ds).1 = ds ∧
      (scanDeliveries none total ds).2.2 = []) ∧
    (∀ (ds : List Delivery) (v : Vehicle) (vs : List Vehicle) (d : Delivery),
      d ∈ ds → d.weight = none →
      (v.capacity = none ∨ ∃ c, v.capacity = some c ∧ 0 ≤ c) →
      ∃ r rs, (route_optimization_tool hashFn ds (v :: vs)).optimizedRoutes = r :: rs ∧
        r.vehicleId = mkVehicleId v 0 ∧ d ∈ r.stops) := by
  constructor
  · exact fun total ds => scanDeliveries_none_accepts_all total ds
  · intro ds v vs d hmem hw hcap
    have hds : ds ≠ [] := by rintro rfl; cases hmem
    have hinv : ∀ c, v.capacity = some c → (0 : ℚ) ≤ c := by
      intro c hc
      rcases hcap with h | ⟨c', hc', hge⟩
      · rw [h] at hc; cases hc
      · rw [hc'] at hc
        injection hc with h
        subst h
        exact hge
    have hmem1 : d ∈ (scanDeliveries v.capacity 0 ds).1 :=
      scanDeliveries_accept_weightless d hw v.capacity ds 0 hinv hmem
    have hne : (scanDeliveries v.capacity 0 ds).1 ≠ [] := by
      intro h; rw [h] at hmem1; cases hmem1
    have hcond : ¬ (ds = [] ∨ v :: vs = []) := by
      rintro (h | h)
      · exact hds h
      · cases h
    simp only [route_optimization_tool, if_neg hcond]
    simp only [assignLoop, if_neg hds, if_neg hne]
    exact ⟨_, _, rfl, rfl, hmem1⟩

/-- Witness for `missing_field_defaults`: a weightless delivery and a
capacity-less vehicle; the delivery lands in the head route of that
vehicle. -/
theorem missing_field_defaults_witness :
    ∃ r rs, (route_optimization_tool (fun _ => 0) [⟨some "d0", none⟩]
        [(⟨some "v1", none⟩ : Vehicle)]).optimizedRoutes = r :: rs ∧
      r.vehicleId = mkVehicleId ⟨some "v1", none⟩ 0 ∧
      (⟨some "d0", none⟩ : Delivery) ∈ r.stops :=
  (missing_field_defaults (fun _ => 0)).2 [⟨some "d0", none⟩] ⟨some "v1", none⟩ []
    ⟨some "d0", none⟩ (List.mem_singleton.mpr rfl) rfl (Or.inl rfl)
